import Mathlib

/-!
Verification development for the btc-staker staking-transaction CLI
(cmd/stakercli/transaction/transactions.go) and the JSON-RPC staker
service client.  Pure Go functions are embedded as Lean functions;
fallible Go code returns `Except Err`.  Definitions marked
"Modelled from the spec" embed code of the repository (or of its
external collaborators) whose source is not part of the staged files,
following the specification's description of it; everything else is
translated directly from the source.
-/

set_option maxRecDepth 8000

namespace BtcStaker

/-- Errors returned along the CLI pipeline.  Constructors keep the
distinction the Go code makes: hex-decoding errors (encoding/hex),
Schnorr key-parsing errors (btcec/schnorr), the unknown-network error,
plain fmt.Errorf message errors (`msg`), transaction-decoding errors,
errors of the external staking library, the JSON-unmarshal failure
(carrying the raw file content, as the Go error format string does),
and the missing-input-file error (carrying the path). -/
inductive Err where
  | hexInvalidByte (c : Char)
  | hexOddLen
  | schnorrInvalidLen (n : Nat)
  | schnorrInvalidPoint (x : Nat)
  | unknownNetwork (name : String)
  | msg (s : String)
  | txDecode
  | stakingLibErr (s : String)
  | jsonDecodeErr (raw : String)
  | fileMissing (path : String)
  deriving DecidableEq, Repr

/-- Spec taxonomy section 7: ParseError is malformed hex / key /
byte-length / transaction input; validation, library, file and JSON
errors are not parse errors. -/
def Err.isParseError : Err → Bool
  | .hexInvalidByte _ => true
  | .hexOddLen => true
  | .schnorrInvalidLen _ => true
  | .schnorrInvalidPoint _ => true
  | .txDecode => true
  | _ => false

/-- True exactly for the JSON decode failure of
createPhase1StakingTransactionFromJson. -/
def Err.isJsonDecodeFailure : Err → Bool
  | .jsonDecodeErr _ => true
  | _ => false

/-- The string payloads an error's message interpolates (the model of
which data the rendered message names). -/
def Err.payloadStrings : Err → List String
  | .unknownNetwork s => [s]
  | .msg s => [s]
  | .stakingLibErr s => [s]
  | .jsonDecodeErr s => [s]
  | .fileMissing p => [p]
  | _ => []

/-- Whether the error's message names the given string. -/
def Err.namesString (e : Err) (s : String) : Bool :=
  (Err.payloadStrings e).contains s

/-- Value of one hex digit, as encoding/hex's fromHexChar: digits,
lowercase and uppercase letters. -/
def hexDigitVal (c : Char) : Option Nat :=
  if '0' ≤ c ∧ c ≤ '9' then some (c.toNat - '0'.toNat)
  else if 'a' ≤ c ∧ c ≤ 'f' then some (c.toNat - 'a'.toNat + 10)
  else if 'A' ≤ c ∧ c ≤ 'F' then some (c.toNat - 'A'.toNat + 10)
  else none

/-- encoding/hex Decode: consume the characters two at a time, reporting
the first invalid byte; a valid lone trailing character is an
odd-length error. -/
def decodeHexChars : List Char → Except Err (List Nat)
  | [] => .ok []
  | [c] =>
    match hexDigitVal c with
    | none => .error (.hexInvalidByte c)
    | some _ => .error .hexOddLen
  | c1 :: c2 :: rest =>
    match hexDigitVal c1 with
    | none => .error (.hexInvalidByte c1)
    | some h =>
      match hexDigitVal c2 with
      | none => .error (.hexInvalidByte c2)
      | some l =>
        match decodeHexChars rest with
        | .error e => .error e
        | .ok bs => .ok ((16 * h + l) :: bs)

/-- hex.DecodeString on a Lean string. -/
def hexDecodeE (s : String) : Except Err (List Nat) :=
  decodeHexChars s.toList

/-- Lowercase hex digit for a value below 16 (encoding/hex hextable). -/
def hexDigitChar (n : Nat) : Char :=
  if n < 10 then Char.ofNat (Char.toNat '0' + n)
  else Char.ofNat (Char.toNat 'a' + n - 10)

/-- hex.EncodeToString: two lowercase digits per byte, high nibble first. -/
def hexEncodeBytes : List Nat → List Char
  | [] => []
  | b :: rest => hexDigitChar (b / 16) :: hexDigitChar (b % 16) :: hexEncodeBytes rest

/-- hex.EncodeToString as a Lean string. -/
def hexEncode (bs : List Nat) : String :=
  String.mk (hexEncodeBytes bs)

/-- The secp256k1 field prime. -/
def secpP : Nat := 2 ^ 256 - 2 ^ 32 - 977

/-- Fuelled modular exponentiation by squaring (executable, structural). -/
def powModAux : Nat → Nat → Nat → Nat → Nat
  | 0, _, _, _ => 1
  | fuel + 1, b, e, m =>
    if e = 0 then 1 % m
    else
      let h := powModAux fuel b (e / 2) m
      if e % 2 = 1 then h * h * b % m else h * h % m

/-- Modular exponentiation; the fuel e + 1 bounds the recursion depth. -/
def powMod (b e m : Nat) : Nat := powModAux (e + 1) b e m

/-- BIP-340 lift_x: the even-Y curve point with the given x coordinate,
or none when x is out of range or not the x coordinate of a point.
The candidate square root is c ^ ((p + 1) / 4) since p = 3 mod 4. -/
def liftX (x : Nat) : Option (Nat × Nat) :=
  if secpP ≤ x then none
  else
    let c := (x ^ 3 + 7) % secpP
    let y := powMod c ((secpP + 1) / 4) secpP
    if y * y % secpP = c then some (x, if y % 2 = 0 then y else secpP - y) else none

/-- An x-only (BIP-340) public key as the pipeline passes it around:
the 32-byte x coordinate, Y parity fixed even by lift_x. -/
structure PublicKey where
  xCoord : Nat
  deriving DecidableEq, Repr

/-- Big-endian byte-sequence to Nat. -/
def bytesToNat (bs : List Nat) : Nat :=
  bs.foldl (fun a b => a * 256 + b) 0

/-- Big-endian bytes of n, exactly w bytes wide. -/
def natToBytes : Nat → Nat → List Nat
  | 0, _ => []
  | w + 1, n => natToBytes w (n / 256) ++ [n % 256]

/-- schnorr.ParsePubKey (btcec/v2/schnorr): exactly 32 bytes, the
big-endian x coordinate of a curve point under the even-Y convention;
any other length is an invalid-length error and an x that lifts to no
point is an invalid-point error. -/
def schnorrParsePubKey (bs : List Nat) : Except Err PublicKey :=
  if bs.length ≠ 32 then .error (.schnorrInvalidLen bs.length)
  else
    match liftX (bytesToNat bs) with
    | none => .error (.schnorrInvalidPoint (bytesToNat bs))
    | some _ => .ok ⟨bytesToNat bs⟩

/-- The bitcoin networks the CLI accepts. -/
inductive BtcNetwork where
  | mainnet
  | testnet3
  | regtest
  | simnet
  | signet
  deriving DecidableEq, Repr

/-- Modelled from the spec: utils.GetBtcNetworkParams (package utils is
not among the staged files).  A network name resolves to its chain
parameter set when it is one of mainnet, testnet3, regtest, simnet,
signet; anything else is an unknown-network error naming the input. -/
def GetBtcNetworkParams (name : String) : Except Err BtcNetwork :=
  if name = "mainnet" then .ok .mainnet
  else if name = "testnet3" then .ok .testnet3
  else if name = "regtest" then .ok .regtest
  else if name = "simnet" then .ok .simnet
  else if name = "signet" then .ok .signet
  else .error (.unknownNetwork name)

/-- btcstaking.MagicBytesLen, the protocol-defined magic-byte length. -/
def MagicBytesLen : Nat := 4

/-- parseSchnorPubKeyFromHex: hex-decode, then Schnorr (x-only) parse. -/
def parseSchnorPubKeyFromHex (pkHex : String) : Except Err PublicKey :=
  match hexDecodeE pkHex with
  | .error e => .error e
  | .ok pkBytes => schnorrParsePubKey pkBytes

/-- parseCovenantKeysFromSlice: decode each member key in order
(hex-decode then Schnorr parse, as the loop body inlines), returning
the first failure, else the keys at their input positions. -/
def parseCovenantKeysFromSlice : List String → Except Err (List PublicKey)
  | [] => .ok []
  | fpPk :: rest =>
    match hexDecodeE fpPk with
    | .error e => .error e
    | .ok fpPkBytes =>
      match schnorrParsePubKey fpPkBytes with
      | .error e => .error e
      | .ok fpSchnorrKey =>
        match parseCovenantKeysFromSlice rest with
        | .error e => .error e
        | .ok ks => .ok (fpSchnorrKey :: ks)

/-- parseMagicBytesFromHex: hex-decode, then require exactly
MagicBytesLen bytes. -/
def parseMagicBytesFromHex (magicBytesHex : String) : Except Err (List Nat) :=
  match hexDecodeE magicBytesHex with
  | .error e => .error e
  | .ok magicBytes =>
    if magicBytes.length ≠ MagicBytesLen then
      .error (.msg ("magic bytes should be of length " ++ toString MagicBytesLen))
    else .ok magicBytes

/-- parseStakingAmountFromCliCtx on the int64 flag value. -/
def parseStakingAmountFromCliCtx (amt : Int) : Except Err Int :=
  if amt ≤ 0 then .error (.msg "staking amount should be greater than 0")
  else .ok amt

/-- parseStakingTimeBlocksFromCliCtx on the int64 flag value; in range
the value is returned unchanged as the uint16 (here the Nat toNat). -/
def parseStakingTimeBlocksFromCliCtx (timeBlocks : Int) : Except Err Nat :=
  if timeBlocks ≤ 0 then
    .error (.msg "staking time blocks should be greater than 0")
  else if 65535 < timeBlocks then
    .error (.msg "staking time blocks should be less or equal to 65535")
  else .ok timeBlocks.toNat

/-- Modelled from the spec: the unsigned phase-1 staking transaction
the external library builds (btcstaking is an external collaborator,
spec sections 4.3/4.4/9): an identifiable staking output plus an
OP_RETURN output encoding the magic bytes and the staking parameters.
The model keeps exactly the data those outputs commit to. -/
structure StakingTx where
  magicBytes : List Nat
  stakerPk : PublicKey
  fpPk : PublicKey
  covenantKeys : List PublicKey
  covenantQuorum : Nat
  stakingTime : Nat
  stakingAmount : Int
  network : BtcNetwork
  deriving DecidableEq, Repr

/-- Modelled from the spec: btcstaking.BuildV0IdentifiableStakingOutputsAndTx,
the external library's compose capability: fails when the magic bytes
have the wrong length or the quorum exceeds the covenant committee
size, else produces the transaction committing to the parameters
verbatim. -/
def BuildV0IdentifiableStakingOutputsAndTx (magicBytes : List Nat)
    (stakerPk fpPk : PublicKey) (covenantKeys : List PublicKey)
    (covenantQuorum stakingTime : Nat) (stakingAmount : Int)
    (net : BtcNetwork) : Except Err StakingTx :=
  if magicBytes.length ≠ MagicBytesLen then
    .error (.stakingLibErr "invalid magic bytes length")
  else if covenantKeys.length < covenantQuorum then
    .error (.stakingLibErr "quorum cannot be bigger than the covenant committee")
  else
    .ok ⟨magicBytes, stakerPk, fpPk, covenantKeys, covenantQuorum,
      stakingTime, stakingAmount, net⟩

/-- Modelled from the spec: btcstaking.ParseV0StakingTx, the external
library's parse capability: validates the expected parameters, then
requires the transaction's envelope to match the expected magic bytes,
covenant set, quorum and network; any mismatch is one verification
failure. -/
def ParseV0StakingTx (tx : StakingTx) (expectedMagicBytes : List Nat)
    (covenantKeys : List PublicKey) (covenantQuorum : Nat)
    (net : BtcNetwork) : Except Err StakingTx :=
  if expectedMagicBytes.length ≠ MagicBytesLen then
    .error (.stakingLibErr "invalid magic bytes length")
  else if covenantKeys.length < covenantQuorum then
    .error (.stakingLibErr "quorum cannot be bigger than the covenant committee")
  else if tx.magicBytes ≠ expectedMagicBytes then
    .error (.stakingLibErr "magic bytes mismatch")
  else if tx.covenantKeys ≠ covenantKeys then
    .error (.stakingLibErr "covenant keys mismatch")
  else if tx.covenantQuorum ≠ covenantQuorum then
    .error (.stakingLibErr "covenant quorum mismatch")
  else if tx.network ≠ net then
    .error (.stakingLibErr "network mismatch")
  else .ok tx

/-- Byte tag of a network in the canonical encoding. -/
def netTag : BtcNetwork → Nat
  | .mainnet => 0
  | .testnet3 => 1
  | .regtest => 2
  | .simnet => 3
  | .signet => 4

/-- Decode a network tag byte. -/
def tagToNet (n : Nat) : Except Err BtcNetwork :=
  if n = 0 then .ok .mainnet
  else if n = 1 then .ok .testnet3
  else if n = 2 then .ok .regtest
  else if n = 3 then .ok .simnet
  else if n = 4 then .ok .signet
  else .error .txDecode

/-- Modelled from the spec: utils.SerializeBtcTransaction (package
utils is not among the staged files), the canonical byte encoding of
the model transaction: magic bytes, the two x-only keys (32 bytes
each), quorum (4), staking time (2), amount (8), network tag (1), then
the covenant keys as 32-byte chunks to the end. -/
def serializeStakingTx (tx : StakingTx) : List Nat :=
  tx.magicBytes ++ natToBytes 32 tx.stakerPk.xCoord
    ++ natToBytes 32 tx.fpPk.xCoord
    ++ natToBytes 4 tx.covenantQuorum
    ++ natToBytes 2 tx.stakingTime
    ++ natToBytes 8 tx.stakingAmount.toNat
    ++ [netTag tx.network]
    ++ (tx.covenantKeys.map (fun k => natToBytes 32 k.xCoord)).flatten

/-- Read exactly n bytes, returning them and the remainder. -/
def readBytes (n : Nat) (bs : List Nat) : Option (List Nat × List Nat) :=
  if bs.length < n then none else some (bs.take n, bs.drop n)

/-- A missing read is a transaction-decode error. -/
def liftR {α : Type} : Option α → Except Err α
  | none => .error .txDecode
  | some a => .ok a

/-- Read the trailing covenant keys as 32-byte chunks; the fuel bounds
the recursion by the input length. -/
def readKeysAux : Nat → List Nat → Except Err (List PublicKey)
  | _, [] => .ok []
  | 0, _ :: _ => .error .txDecode
  | fuel + 1, b :: bs =>
    match readBytes 32 (b :: bs) with
    | none => .error .txDecode
    | some (kb, rest) =>
      match readKeysAux fuel rest with
      | .error e => .error e
      | .ok ks => .ok (⟨bytesToNat kb⟩ :: ks)

/-- Read the trailing covenant keys of a serialized transaction. -/
def readKeys (bs : List Nat) : Except Err (List PublicKey) :=
  readKeysAux bs.length bs

/-- Modelled from the spec: decoding a serialized transaction back into
the structure (the transaction-decoding half of bbn.NewBTCTxFromHex);
malformed input is a decode error. -/
def deserializeStakingTx (bs : List Nat) : Except Err StakingTx := do
  let (magic, r1) ← liftR (readBytes 4 bs)
  let (sk, r2) ← liftR (readBytes 32 r1)
  let (fk, r3) ← liftR (readBytes 32 r2)
  let (qb, r4) ← liftR (readBytes 4 r3)
  let (tb, r5) ← liftR (readBytes 2 r4)
  let (ab, r6) ← liftR (readBytes 8 r5)
  let (nb, r7) ← liftR (readBytes 1 r6)
  let net ← tagToNet (bytesToNat nb)
  let ks ← readKeys r7
  .ok ⟨magic, ⟨bytesToNat sk⟩, ⟨bytesToNat fk⟩, ks, bytesToNat qb,
    bytesToNat tb, (bytesToNat ab : Nat), net⟩

/-- bbn.NewBTCTxFromHex: hex-decode, then decode the transaction. -/
def NewBTCTxFromHex (txHex : String) : Except Err StakingTx := do
  let bs ← hexDecodeE txHex
  deserializeStakingTx bs

/-- The builder's sole externally visible artifact. -/
structure CreatePhase1StakingTxResponse where
  stakingTxHex : String
  deriving DecidableEq, Repr

/-- MakeCreatePhase1StakingTxResponse: build via the external library,
serialize, hex-encode. -/
def MakeCreatePhase1StakingTxResponse (magicBytes : List Nat)
    (stakerPk fpPk : PublicKey) (covenantMembersPks : List PublicKey)
    (covenantQuorum stakingTimeBlocks : Nat) (stakingAmount : Int)
    (net : BtcNetwork) : Except Err CreatePhase1StakingTxResponse := do
  let tx ← BuildV0IdentifiableStakingOutputsAndTx magicBytes stakerPk fpPk
    covenantMembersPks covenantQuorum stakingTimeBlocks stakingAmount net
  .ok ⟨hexEncode (serializeStakingTx tx)⟩

/-- The verification core of checkPhase1StakingTransaction once the
network is resolved and the flags are parsed: decode the hex
transaction and hand it to ParseV0StakingTx. -/
def verifyStakingTxHex (txHex : String) (magicBytes : List Nat)
    (covenantKeys : List PublicKey) (covenantQuorum : Nat)
    (net : BtcNetwork) : Except Err StakingTx := do
  let tx ← NewBTCTxFromHex txHex
  ParseV0StakingTx tx magicBytes covenantKeys covenantQuorum net

/-- The raw flag values of create-phase1-staking-transaction, as the
cli context delivers them (strings, int64s, and the uint64 quorum). -/
structure CreateInputs where
  network : String
  stakerPkHex : String
  fpPkHex : String
  stakingAmount : Int
  stakingTimeBlocks : Int
  magicBytesHex : String
  covenantPksHex : List String
  covenantQuorum : Nat
  deriving DecidableEq, Repr

/-- The arguments createPhase1StakingTransaction hands to the external
library's build capability. -/
structure BuildArgs where
  magicBytes : List Nat
  stakerPk : PublicKey
  fpPk : PublicKey
  covenantKeys : List PublicKey
  covenantQuorum : Nat
  stakingTime : Nat
  stakingAmount : Int
  network : BtcNetwork
  deriving DecidableEq, Repr

/-- The parameter-processing prefix of createPhase1StakingTransaction,
in the source's exact order: network lookup, staker key, finality
provider key, amount, staking time, magic bytes, covenant keys; the
uint64 quorum flag is converted to uint32 (its value modulo 2^32).
The external library is invoked exactly when this succeeds. -/
def createArgs (i : CreateInputs) : Except Err BuildArgs := do
  let net ← GetBtcNetworkParams i.network
  let stakerPk ← parseSchnorPubKeyFromHex i.stakerPkHex
  let fpPk ← parseSchnorPubKeyFromHex i.fpPkHex
  let stakingAmount ← parseStakingAmountFromCliCtx i.stakingAmount
  let stakingTimeBlocks ← parseStakingTimeBlocksFromCliCtx i.stakingTimeBlocks
  let magicBytes ← parseMagicBytesFromHex i.magicBytesHex
  let covenantMembersPks ← parseCovenantKeysFromSlice i.covenantPksHex
  .ok ⟨magicBytes, stakerPk, fpPk, covenantMembersPks,
    i.covenantQuorum % 2 ^ 32, stakingTimeBlocks, stakingAmount, net⟩

/-- createPhase1StakingTransaction: process the flags, then build and
serialize through MakeCreatePhase1StakingTxResponse. -/
def createPhase1StakingTransaction (i : CreateInputs) :
    Except Err CreatePhase1StakingTxResponse := do
  let a ← createArgs i
  MakeCreatePhase1StakingTxResponse a.magicBytes a.stakerPk a.fpPk
    a.covenantKeys a.covenantQuorum a.stakingTime a.stakingAmount a.network

/-- The raw flag values of check-phase1-staking-transaction. -/
structure CheckInputs where
  network : String
  stakingTxHex : String
  magicBytesHex : String
  covenantPksHex : List String
  covenantQuorum : Nat
  deriving DecidableEq, Repr

/-- checkPhase1StakingTransaction, in the source's exact order: network
lookup, transaction hex decode, magic bytes, covenant keys, then
ParseV0StakingTx with the uint64 quorum flag converted to uint32. -/
def checkPhase1StakingTransaction (i : CheckInputs) : Except Err Unit := do
  let net ← GetBtcNetworkParams i.network
  let tx ← NewBTCTxFromHex i.stakingTxHex
  let magicBytes ← parseMagicBytesFromHex i.magicBytesHex
  let covenantMembersPks ← parseCovenantKeysFromSlice i.covenantPksHex
  let _ ← ParseV0StakingTx tx magicBytes covenantMembersPks
    (i.covenantQuorum % 2 ^ 32) net
  .ok ()

/-- A JSON field value as far as the staking input file uses them:
strings, integers, and arrays of strings. -/
inductive JVal where
  | str (s : String)
  | int (n : Int)
  | strs (l : List String)
  deriving DecidableEq, Repr

/-- The content of the input file, as far as JSON decoding is
concerned: either not valid JSON for the target structure (kept with
its raw text), or a JSON object given as its field list. -/
inductive JsonContent where
  | malformed (raw : String)
  | object (fields : List (String × JVal))
  deriving DecidableEq, Repr

/-- Modelled from the spec: InputBtcStakingTx (its source file is not
among the staged files), the JSON-serializable mirror of the staking
parameters. -/
structure InputBtcStakingTx where
  stakerPublicKey : String
  finalityProviderPublicKey : String
  stakingAmount : Int
  stakingTimeBlocks : Int
  magicBytesHex : String
  covenantCommitteePksHex : List String
  covenantQuorum : Nat
  network : String
  deriving DecidableEq, Repr

/-- The content-derived text a json.Unmarshal failure interpolates for
an object whose field has the wrong type (the %s of the raw bytes in
the Go error format; rendered here from the field list). -/
def renderFields (fields : List (String × JVal)) : String :=
  String.intercalate "," (fields.map Prod.fst)

/-- encoding/json semantics for a string-typed struct field: a missing
field keeps the zero value "", a present string is taken, any other
type fails decoding. -/
def getStrField (fields : List (String × JVal)) (key : String) :
    Except Err String :=
  match List.lookup key fields with
  | none => .ok ""
  | some (.str s) => .ok s
  | some _ => .error (.jsonDecodeErr (renderFields fields))

/-- encoding/json semantics for an int64 struct field: missing keeps 0. -/
def getIntField (fields : List (String × JVal)) (key : String) :
    Except Err Int :=
  match List.lookup key fields with
  | none => .ok 0
  | some (.int n) => .ok n
  | some _ => .error (.jsonDecodeErr (renderFields fields))

/-- encoding/json semantics for a uint64 struct field: missing keeps 0,
a negative number fails decoding. -/
def getNatField (fields : List (String × JVal)) (key : String) :
    Except Err Nat :=
  match List.lookup key fields with
  | none => .ok 0
  | some (.int n) => if n < 0 then .error (.jsonDecodeErr (renderFields fields)) else .ok n.toNat
  | some _ => .error (.jsonDecodeErr (renderFields fields))

/-- encoding/json semantics for a []string struct field: missing keeps
the empty slice. -/
def getStrsField (fields : List (String × JVal)) (key : String) :
    Except Err (List String) :=
  match List.lookup key fields with
  | none => .ok []
  | some (.strs l) => .ok l
  | some _ => .error (.jsonDecodeErr (renderFields fields))

/-- json.Unmarshal of the file bytes into InputBtcStakingTx: content
that is not a JSON object for the structure fails with the decode
error carrying the content text; a well-formed object fills the
fields, leaving zero values for the missing ones. -/
def unmarshalInput : JsonContent → Except Err InputBtcStakingTx
  | .malformed raw => .error (.jsonDecodeErr raw)
  | .object fields => do
    let sk ← getStrField fields "staker_public_key"
    let fk ← getStrField fields "finality_provider_public_key"
    let amt ← getIntField fields "staking_amount"
    let time ← getIntField fields "staking_time_blocks"
    let mb ← getStrField fields "magic_bytes"
    let cov ← getStrsField fields "covenant_committee_pks"
    let q ← getNatField fields "covenant_quorum"
    let net ← getStrField fields "network"
    .ok ⟨sk, fk, amt, time, mb, cov, q, net⟩

/-- Modelled from the spec: InputBtcStakingTx.ToCreatePhase1StakingTxResponse
(its source file is not among the staged files) funnels the loaded
fields into the same parameter processing and Builder as the flag
path. -/
def ToCreatePhase1StakingTxResponse (i : InputBtcStakingTx) :
    Except Err CreatePhase1StakingTxResponse :=
  createPhase1StakingTransaction ⟨i.network, i.stakerPublicKey,
    i.finalityProviderPublicKey, i.stakingAmount, i.stakingTimeBlocks,
    i.magicBytesHex, i.covenantCommitteePksHex, i.covenantQuorum⟩

/-- createPhase1StakingTransactionFromJson: empty path, missing file,
JSON decoding, then conversion to the build response.  The file system
is abstracted as the optional content found at the path. -/
def createPhase1StakingTransactionFromJson (inputFilePath : String)
    (file : Option JsonContent) : Except Err CreatePhase1StakingTxResponse :=
  if inputFilePath.length = 0 then .error (.msg "json file input is empty")
  else
    match file with
    | none => .error (.fileMissing inputFilePath)
    | some content => do
      let input ← unmarshalInput content
      ToCreatePhase1StakingTxResponse input

/-- A JSON-RPC named-parameter value: the client only ever sends
integers here; null is representable to state that it is never sent. -/
inductive RpcParamValue where
  | intVal (n : Int)
  | strVal (s : String)
  | nullVal
  deriving DecidableEq, Repr

/-- One JSON-RPC request as the client issues it: the method name and
the named-parameter object (as its field list). -/
structure RpcRequest where
  method : String
  params : List (String × RpcParamValue)
  deriving DecidableEq, Repr

/-- BabylonValidators: the params map starts empty; limit is inserted
when non-nil, then offset when non-nil. -/
def babylonValidatorsRequest (offset limit : Option Int) : RpcRequest :=
  ⟨"babylon_validators",
    (match limit with
      | some l => [("limit", RpcParamValue.intVal l)]
      | none => []) ++
    (match offset with
      | some o => [("offset", RpcParamValue.intVal o)]
      | none => [])⟩

/-- ListStakingTransactions: same pagination convention as
BabylonValidators. -/
def listStakingTransactionsRequest (offset limit : Option Int) : RpcRequest :=
  ⟨"list_staking_transactions",
    (match limit with
      | some l => [("limit", RpcParamValue.intVal l)]
      | none => []) ++
    (match offset with
      | some o => [("offset", RpcParamValue.intVal o)]
      | none => [])⟩

/-! Helper lemmas. -/

instance {ε α : Type} [DecidableEq ε] [DecidableEq α] :
    DecidableEq (Except ε α) := fun x y =>
  match x, y with
  | .ok a, .ok b =>
    if h : a = b then .isTrue (by rw [h])
    else .isFalse (by intro hc; injection hc; contradiction)
  | .error a, .error b =>
    if h : a = b then .isTrue (by rw [h])
    else .isFalse (by intro hc; injection hc; contradiction)
  | .ok _, .error _ => .isFalse (by intro hc; exact Except.noConfusion hc)
  | .error _, .ok _ => .isFalse (by intro hc; exact Except.noConfusion hc)

theorem hexDigitVal_hexDigitChar (d : Nat) (hd : d < 16) :
    hexDigitVal (hexDigitChar d) = some d := by
  interval_cases d <;> decide

theorem decodeHex_encode (bs : List Nat) (hb : ∀ b ∈ bs, b < 256) :
    decodeHexChars (hexEncodeBytes bs) = .ok bs := by
  induction bs with
  | nil => rfl
  | cons b rest ih =>
    have hb0 : b < 256 := hb b (by simp)
    have h1 : hexDigitVal (hexDigitChar (b / 16)) = some (b / 16) :=
      hexDigitVal_hexDigitChar _ (by omega)
    have h2 : hexDigitVal (hexDigitChar (b % 16)) = some (b % 16) :=
      hexDigitVal_hexDigitChar _ (by omega)
    have hb' : 16 * (b / 16) + b % 16 = b := by omega
    simp [hexEncodeBytes, decodeHexChars, h1, h2, hb',
      ih (fun x hx => hb x (by simp [hx]))]

theorem hexDecodeE_hexEncode (bs : List Nat) (hb : ∀ b ∈ bs, b < 256) :
    hexDecodeE (hexEncode bs) = .ok bs :=
  decodeHex_encode bs hb

theorem length_natToBytes (w n : Nat) : (natToBytes w n).length = w := by
  induction w generalizing n with
  | zero => rfl
  | succ w ih => simp [natToBytes, ih]

theorem natToBytes_lt (w n : Nat) : ∀ b ∈ natToBytes w n, b < 256 := by
  induction w generalizing n with
  | zero => simp [natToBytes]
  | succ w ih =>
    intro b hb
    simp only [natToBytes, List.mem_append, List.mem_singleton] at hb
    rcases hb with h | h
    · exact ih _ _ h
    · omega

theorem bytesToNat_append_singleton (xs : List Nat) (b : Nat) :
    bytesToNat (xs ++ [b]) = bytesToNat xs * 256 + b := by
  simp [bytesToNat, List.foldl_append]

theorem bytesToNat_natToBytes (w n : Nat) (h : n < 256 ^ w) :
    bytesToNat (natToBytes w n) = n := by
  induction w generalizing n with
  | zero =>
    simp only [pow_zero] at h
    simp [natToBytes, bytesToNat]
    omega
  | succ w ih =>
    have hdiv : n / 256 < 256 ^ w := by
      apply Nat.div_lt_of_lt_mul
      rw [Nat.mul_comm, ← pow_succ]
      exact h
    simp [natToBytes, bytesToNat_append_singleton, ih _ hdiv]
    omega

theorem bytesToNat_singleton (b : Nat) : bytesToNat [b] = b := by
  simp [bytesToNat]

/-! Claim theorems begin here. -/

/-- C4: parseStakingTimeBlocksFromCliCtx fails with one distinct
message for values below 1 and another distinct message for values
above 65535; boundary values 1 and 65535 succeed, and in-range values
are returned unchanged as the 16-bit integer. -/
theorem claim_C4 (v : Int) (w : Nat) :
    (parseStakingTimeBlocksFromCliCtx v
        = .error (.msg "staking time blocks should be greater than 0") ↔ v ≤ 0)
  ∧ (parseStakingTimeBlocksFromCliCtx v
        = .error (.msg "staking time blocks should be less or equal to 65535") ↔ 65535 < v)
  ∧ (Err.msg "staking time blocks should be greater than 0"
      ≠ Err.msg "staking time blocks should be less or equal to 65535")
  ∧ (parseStakingTimeBlocksFromCliCtx v = .ok w ↔ 0 < v ∧ v ≤ 65535 ∧ (w : Int) = v)
  ∧ parseStakingTimeBlocksFromCliCtx 1 = .ok 1
  ∧ parseStakingTimeBlocksFromCliCtx 65535 = .ok 65535 := by
  unfold parseStakingTimeBlocksFromCliCtx
  refine ⟨?_, ?_, by decide, ?_, by decide, by decide⟩
  · split_ifs with h1 h2 <;> simp <;> omega
  · split_ifs with h1 h2 <;> simp <;> omega
  · split_ifs with h1 h2 <;> simp <;> omega

/-- C5: parseStakingAmountFromCliCtx succeeds on exactly the positive
amounts, returning the amount unchanged, and fails on every amount at
most 0 with exactly the message "staking amount should be greater than
0"; in createPhase1StakingTransaction a non-positive amount means the
parameter-processing prefix createArgs never succeeds, so
MakeCreatePhase1StakingTxResponse — the sole call site of the external
library's build — is never invoked. -/
theorem claim_C5 (amt w : Int) (i : CreateInputs) :
    (parseStakingAmountFromCliCtx amt = .ok w ↔ 0 < amt ∧ w = amt)
  ∧ (parseStakingAmountFromCliCtx amt
      = .error (.msg "staking amount should be greater than 0") ↔ amt ≤ 0)
  ∧ (i.stakingAmount ≤ 0 → (createArgs i).isOk = false) := by
  refine ⟨?_, ?_, ?_⟩
  · unfold parseStakingAmountFromCliCtx
    split_ifs with h <;> simp <;> omega
  · unfold parseStakingAmountFromCliCtx
    split_ifs with h <;> simp <;> omega
  · intro hle
    simp only [createArgs, bind, Except.bind]
    cases GetBtcNetworkParams i.network with
    | error e => simp [Except.isOk, Except.toBool]
    | ok net =>
      cases parseSchnorPubKeyFromHex i.stakerPkHex with
      | error e => simp [Except.isOk, Except.toBool]
      | ok sk =>
        cases parseSchnorPubKeyFromHex i.fpPkHex with
        | error e => simp [Except.isOk, Except.toBool]
        | ok fk =>
          simp [parseStakingAmountFromCliCtx, hle, Except.isOk, Except.toBool]

/-- C6: on hex input that decodes, parseMagicBytesFromHex fails with
the error naming the protocol-defined magic-byte length whenever the
decoded length differs from it, and returns the decoded bytes
whenever the length is exactly that constant. -/
theorem claim_C6 (s : String) (bs : List Nat) :
    (hexDecodeE s = .ok bs ∧ bs.length ≠ MagicBytesLen →
      parseMagicBytesFromHex s
        = .error (.msg ("magic bytes should be of length " ++ toString MagicBytesLen)))
  ∧ (hexDecodeE s = .ok bs ∧ bs.length = MagicBytesLen →
      parseMagicBytesFromHex s = .ok bs) := by
  constructor
  · rintro ⟨h, hlen⟩
    simp [parseMagicBytesFromHex, h, hlen]
  · rintro ⟨h, hlen⟩
    simp [parseMagicBytesFromHex, h, hlen]

/-- C9: for BabylonValidators and ListStakingTransactions, omitting
offset and limit produces a named-parameter object with no fields at
all; supplying both produces exactly the fields "offset" and "limit"
with the supplied values; and no parameter is ever sent as an explicit
null. -/
theorem claim_C9 (o l : Option Int) (ov lv : Int) :
    (babylonValidatorsRequest o l).method = "babylon_validators"
  ∧ (listStakingTransactionsRequest o l).method = "list_staking_transactions"
  ∧ RpcParamValue.nullVal ∉ ((babylonValidatorsRequest o l).params.map Prod.snd)
  ∧ RpcParamValue.nullVal ∉ ((listStakingTransactionsRequest o l).params.map Prod.snd)
  ∧ (babylonValidatorsRequest none none).params = []
  ∧ (listStakingTransactionsRequest none none).params = []
  ∧ (babylonValidatorsRequest (some ov) (some lv)).params
      = [("limit", RpcParamValue.intVal lv), ("offset", RpcParamValue.intVal ov)]
  ∧ (listStakingTransactionsRequest (some ov) (some lv)).params
      = [("limit", RpcParamValue.intVal lv), ("offset", RpcParamValue.intVal ov)] := by
  refine ⟨rfl, rfl, ?_, ?_, rfl, rfl, rfl, rfl⟩ <;>
    cases o <;> cases l <;>
    simp [babylonValidatorsRequest, listStakingTransactionsRequest]

/-- C10: the uint64 covenant-quorum flag reaches the external library
reduced modulo 2^32 (Go's uint32 conversion): both commands behave
identically on any two quorum flag values congruent modulo 2^32, and
whenever createArgs succeeds the quorum it passes on is the flag value
modulo 2^32. -/
theorem claim_C10 (ci : CreateInputs) (ki : CheckInputs) (a : BuildArgs) :
    createPhase1StakingTransaction ci
      = createPhase1StakingTransaction
          ⟨ci.network, ci.stakerPkHex, ci.fpPkHex, ci.stakingAmount,
            ci.stakingTimeBlocks, ci.magicBytesHex, ci.covenantPksHex,
            ci.covenantQuorum % 2 ^ 32⟩
  ∧ checkPhase1StakingTransaction ki
      = checkPhase1StakingTransaction
          ⟨ki.network, ki.stakingTxHex, ki.magicBytesHex, ki.covenantPksHex,
            ki.covenantQuorum % 2 ^ 32⟩
  ∧ (createArgs ci = .ok a → a.covenantQuorum = ci.covenantQuorum % 2 ^ 32) := by
  have hmod : ci.covenantQuorum % 2 ^ 32 % 2 ^ 32 = ci.covenantQuorum % 2 ^ 32 :=
    Nat.mod_mod_of_dvd _ dvd_rfl
  have hmod' : ki.covenantQuorum % 2 ^ 32 % 2 ^ 32 = ki.covenantQuorum % 2 ^ 32 :=
    Nat.mod_mod_of_dvd _ dvd_rfl
  refine ⟨?_, ?_, ?_⟩
  · simp [createPhase1StakingTransaction, createArgs, hmod]
  · simp [checkPhase1StakingTransaction, hmod']
  · intro h
    simp only [createArgs, bind, Except.bind] at h
    cases hnet : GetBtcNetworkParams ci.network with
    | error e => rw [hnet] at h; simp at h
    | ok net =>
      rw [hnet] at h
      cases hsk : parseSchnorPubKeyFromHex ci.stakerPkHex with
      | error e => rw [hsk] at h; simp at h
      | ok sk =>
        rw [hsk] at h
        cases hfk : parseSchnorPubKeyFromHex ci.fpPkHex with
        | error e => rw [hfk] at h; simp at h
        | ok fk =>
          rw [hfk] at h
          cases hamt : parseStakingAmountFromCliCtx ci.stakingAmount with
          | error e => rw [hamt] at h; simp at h
          | ok amt =>
            rw [hamt] at h
            cases htm : parseStakingTimeBlocksFromCliCtx ci.stakingTimeBlocks with
            | error e => rw [htm] at h; simp at h
            | ok tm =>
              rw [htm] at h
              cases hmb : parseMagicBytesFromHex ci.magicBytesHex with
              | error e => rw [hmb] at h; simp at h
              | ok mb =>
                rw [hmb] at h
                cases hcov : parseCovenantKeysFromSlice ci.covenantPksHex with
                | error e => rw [hcov] at h; simp at h
                | ok cov =>
                  rw [hcov] at h
                  simp only [Except.ok.injEq] at h
                  rw [← h]

/-- C2 counterexample: an input carrying both an unknown network name
(a validation-level defect) and a malformed staker key (a parse-level
defect) returns the unknown-network error — which is not a parse
error — so the parse error is not the one reported, contrary to the
claim. -/
theorem claim_C2_counterexample :
    createPhase1StakingTransaction ⟨"foonet", "zz", "", -1, 0, "", [], 0⟩
      = .error (.unknownNetwork "foonet")
  ∧ (Err.unknownNetwork "foonet").isParseError = false
  ∧ parseSchnorPubKeyFromHex "zz" = .error (.hexInvalidByte 'z')
  ∧ (Err.hexInvalidByte 'z').isParseError = true := by decide

/-- C2 amended: the network-parameter lookup runs first in both
commands, so its unknown-network error is reported before any parse
error; after a successful network lookup the errors follow the fixed
flag-processing order of each command (in particular a malformed
staker key is then reported before any later validation). -/
theorem claim_C2_order (ci ci2 : CreateInputs) (ki : CheckInputs)
    (e e' f : Err) (net : BtcNetwork)
    (h1 : GetBtcNetworkParams ci.network = .error e)
    (h2 : GetBtcNetworkParams ki.network = .error e')
    (h3 : GetBtcNetworkParams ci2.network = .ok net)
    (h4 : parseSchnorPubKeyFromHex ci2.stakerPkHex = .error f) :
    createPhase1StakingTransaction ci = .error e
  ∧ checkPhase1StakingTransaction ki = .error e'
  ∧ createPhase1StakingTransaction ci2 = .error f := by
  refine ⟨?_, ?_, ?_⟩
  · simp [createPhase1StakingTransaction, createArgs, h1, bind, Except.bind]
  · simp [checkPhase1StakingTransaction, h2, bind, Except.bind]
  · simp [createPhase1StakingTransaction, createArgs, h3, h4, bind, Except.bind]

/-- C2 witness: concrete inputs for each part of the amended ordering
statement. -/
theorem claim_C2_witness :
    createPhase1StakingTransaction ⟨"barnet", "zz", "", -1, 0, "", [], 0⟩
      = .error (.unknownNetwork "barnet")
  ∧ checkPhase1StakingTransaction ⟨"barnet", "", "", [], 0⟩
      = .error (.unknownNetwork "barnet")
  ∧ createPhase1StakingTransaction ⟨"regtest", "zz", "", -1, 0, "", [], 0⟩
      = .error (.hexInvalidByte 'z') :=
  claim_C2_order ⟨"barnet", "zz", "", -1, 0, "", [], 0⟩
    ⟨"regtest", "zz", "", -1, 0, "", [], 0⟩ ⟨"barnet", "", "", [], 0⟩
    (.unknownNetwork "barnet") (.unknownNetwork "barnet")
    (.hexInvalidByte 'z') .regtest (by decide) (by decide) (by decide) (by decide)

/-- C3 counterexample: a JSON object missing every required field
(including network) decodes successfully under Go's json.Unmarshal
semantics, so no decode failure occurs at all; the command fails later
with the unknown-network error for the zero-value "", whose message
does not name the file path. -/
theorem claim_C3_counterexample :
    createPhase1StakingTransactionFromJson "input.json" (some (.object []))
      = .error (.unknownNetwork "")
  ∧ (Err.unknownNetwork "").isJsonDecodeFailure = false
  ∧ Err.namesString (.unknownNetwork "") "input.json" = false := by decide

/-- C3 amended: a JSON input file that parses but misses the required
network field decodes to the zero value, so the command fails with the
unknown-network error for "" — not with a decode failure, and without
the file path in the message; only malformed JSON produces the decode
failure, and it carries the raw content, not the path. -/
theorem claim_C3_missing_field (path : String) (fields : List (String × JVal))
    (inp : InputBtcStakingTx) (raw : String)
    (hpath : path.length ≠ 0)
    (hlook : List.lookup "network" fields = none)
    (hu : unmarshalInput (.object fields) = .ok inp) :
    createPhase1StakingTransactionFromJson path (some (.object fields))
        = .error (.unknownNetwork "")
  ∧ (Err.unknownNetwork "").isJsonDecodeFailure = false
  ∧ Err.namesString (.unknownNetwork "") path = false
  ∧ createPhase1StakingTransactionFromJson path (some (.malformed raw))
        = .error (.jsonDecodeErr raw) := by
  have hnet : inp.network = "" := by
    simp only [unmarshalInput, bind, Except.bind] at hu
    cases h1 : getStrField fields "staker_public_key" with
    | error e => rw [h1] at hu; simp at hu
    | ok sk =>
      rw [h1] at hu
      cases h2 : getStrField fields "finality_provider_public_key" with
      | error e => rw [h2] at hu; simp at hu
      | ok fk =>
        rw [h2] at hu
        cases h3 : getIntField fields "staking_amount" with
        | error e => rw [h3] at hu; simp at hu
        | ok amt =>
          rw [h3] at hu
          cases h4 : getIntField fields "staking_time_blocks" with
          | error e => rw [h4] at hu; simp at hu
          | ok tm =>
            rw [h4] at hu
            cases h5 : getStrField fields "magic_bytes" with
            | error e => rw [h5] at hu; simp at hu
            | ok mb =>
              rw [h5] at hu
              cases h6 : getStrsField fields "covenant_committee_pks" with
              | error e => rw [h6] at hu; simp at hu
              | ok cov =>
                rw [h6] at hu
                cases h7 : getNatField fields "covenant_quorum" with
                | error e => rw [h7] at hu; simp at hu
                | ok q =>
                  rw [h7] at hu
                  have h8 : getStrField fields "network" = .ok "" := by
                    simp [getStrField, hlook]
                  rw [h8] at hu
                  simp only [Except.ok.injEq] at hu
                  rw [← hu]
  have hne : path ≠ "" := by
    intro hcon
    rw [hcon] at hpath
    exact hpath rfl
  refine ⟨?_, rfl, ?_, ?_⟩
  · simp only [createPhase1StakingTransactionFromJson, if_neg hpath, bind,
      Except.bind, hu]
    simp only [ToCreatePhase1StakingTxResponse, createPhase1StakingTransaction,
      createArgs, bind, Except.bind, hnet]
    rfl
  · simp [Err.namesString, Err.payloadStrings, List.contains]
    exact fun hcon => hne hcon
  · simp [createPhase1StakingTransactionFromJson, if_neg hpath, bind,
      Except.bind, unmarshalInput]

/-- C3 witness: the amended statement at the concrete path, the empty
JSON object, its decoded zero-value structure, and a malformed raw
text. -/
theorem claim_C3_witness :
    createPhase1StakingTransactionFromJson "in.json" (some (.object []))
        = .error (.unknownNetwork "")
  ∧ (Err.unknownNetwork "").isJsonDecodeFailure = false
  ∧ Err.namesString (.unknownNetwork "") "in.json" = false
  ∧ createPhase1StakingTransactionFromJson "in.json" (some (.malformed "not json"))
        = .error (.jsonDecodeErr "not json") :=
  claim_C3_missing_field "in.json" [] ⟨"", "", 0, 0, "", [], 0, ""⟩ "not json"
    (by decide) rfl rfl

/-- C7: every public-key input goes through the x-only Schnorr
decoder, which accepts only 32-byte keys: any hex input decoding to 33
bytes — in particular any valid 33-byte compressed public key — fails,
both through parseSchnorPubKeyFromHex (the staker and finality
provider keys) and as a covenant committee member key. -/
theorem claim_C7 (s : String) (bs : List Nat) (rest : List String)
    (hdec : hexDecodeE s = .ok bs) (hlen : bs.length = 33) :
    parseSchnorPubKeyFromHex s = .error (.schnorrInvalidLen 33)
  ∧ parseCovenantKeysFromSlice (s :: rest) = .error (.schnorrInvalidLen 33) := by
  have hp : schnorrParsePubKey bs = .error (.schnorrInvalidLen 33) := by
    simp [schnorrParsePubKey, hlen]
  constructor
  · simp [parseSchnorPubKeyFromHex, hdec, hp]
  · simp [parseCovenantKeysFromSlice, hdec, hp]

/-- C7 witness: the compressed (33-byte) encoding of the secp256k1
generator point — a valid compressed public key — is rejected by the
x-only decoder. -/
theorem claim_C7_witness :
    parseSchnorPubKeyFromHex
        "0279be667ef9dcbbac55a06295ce870b07029bfcdb2dce28d959f2815b16f81798"
      = .error (.schnorrInvalidLen 33) :=
  (claim_C7 "0279be667ef9dcbbac55a06295ce870b07029bfcdb2dce28d959f2815b16f81798"
    [2, 121, 190, 102, 126, 249, 220, 187, 172, 85, 160, 98, 149, 206, 135, 11,
      7, 2, 155, 252, 219, 45, 206, 40, 217, 89, 242, 129, 91, 22, 248, 23, 152]
    [] (by decide) (by decide)).1

/-- The covenant-key loop body applied to one element agrees with
parseSchnorPubKeyFromHex followed by the recursion on the rest. -/
theorem parseCovenantKeys_cons (s : String) (rest : List String) :
    parseCovenantKeysFromSlice (s :: rest) =
      match parseSchnorPubKeyFromHex s with
      | .error e => .error e
      | .ok k =>
        match parseCovenantKeysFromSlice rest with
        | .error e => .error e
        | .ok ks => .ok (k :: ks) := by
  simp only [parseCovenantKeysFromSlice, parseSchnorPubKeyFromHex]
  cases hexDecodeE s with
  | error e => rfl
  | ok bs =>
    cases schnorrParsePubKey bs with
    | error e => rfl
    | ok k => rfl

/-- Success of the covenant-key parser characterized pointwise. -/
theorem covkeys_ok_iff (l : List String) (ks : List PublicKey) :
    parseCovenantKeysFromSlice l = .ok ks ↔
      (ks.length = l.length ∧
        ∀ p ∈ l.zip ks, parseSchnorPubKeyFromHex p.1 = .ok p.2) := by
  induction l generalizing ks with
  | nil =>
    simp only [parseCovenantKeysFromSlice]
    constructor
    · intro h
      injection h with h
      subst h
      simp
    · rintro ⟨hlen, _⟩
      cases ks with
      | nil => rfl
      | cons k ks => simp at hlen
  | cons s rest ih =>
    rw [parseCovenantKeys_cons]
    cases hp : parseSchnorPubKeyFromHex s with
    | error e =>
      constructor
      · intro h
        exact Except.noConfusion h
      · rintro ⟨hlen, hall⟩
        cases ks with
        | nil => simp at hlen
        | cons k ks =>
          have := hall (s, k) (by simp)
          rw [hp] at this
          exact Except.noConfusion this
    | ok k =>
      cases hr : parseCovenantKeysFromSlice rest with
      | error e =>
        constructor
        · intro h
          exact Except.noConfusion h
        · rintro ⟨hlen, hall⟩
          cases ks with
          | nil => simp at hlen
          | cons k0 ks0 =>
            have htail : parseCovenantKeysFromSlice rest = .ok ks0 := by
              rw [ih ks0]
              refine ⟨by simpa using hlen, ?_⟩
              intro p hpmem
              exact hall p (by simp [hpmem])
            rw [hr] at htail
            exact Except.noConfusion htail
      | ok ks0 =>
        constructor
        · intro h
          injection h with h
          subst h
          obtain ⟨hlen, hall⟩ := (ih ks0).mp hr
          refine ⟨by simp [hlen], ?_⟩
          intro p hpmem
          simp only [List.zip_cons_cons, List.mem_cons] at hpmem
          rcases hpmem with h1 | h1
          · rw [h1, hp]
          · exact hall p h1
        · rintro ⟨hlen, hall⟩
          cases ks with
          | nil => simp at hlen
          | cons k1 ks1 =>
            have hhead := hall (s, k1) (by simp)
            rw [hp] at hhead
            injection hhead with hhead
            subst hhead
            have htail : parseCovenantKeysFromSlice rest = .ok ks1 := by
              rw [ih ks1]
              refine ⟨by simpa using hlen, ?_⟩
              intro p hpmem
              exact hall p (by simp [hpmem])
            rw [hr] at htail
            injection htail with htail
            rw [htail]

/-- Failure of the covenant-key parser characterized as the first
invalid element's own error. -/
theorem covkeys_error_iff (l : List String) (e : Err) :
    parseCovenantKeysFromSlice l = .error e ↔
      ∃ pre s post, l = pre ++ s :: post
        ∧ (∀ t ∈ pre, (parseSchnorPubKeyFromHex t).isOk = true)
        ∧ parseSchnorPubKeyFromHex s = .error e := by
  induction l with
  | nil =>
    simp only [parseCovenantKeysFromSlice]
    constructor
    · intro h
      exact Except.noConfusion h
    · rintro ⟨pre, s, post, hdecomp, -, -⟩
      exact absurd hdecomp.symm (List.append_ne_nil_of_right_ne_nil pre (by simp))
  | cons a rest ih =>
    rw [parseCovenantKeys_cons]
    cases hp : parseSchnorPubKeyFromHex a with
    | error e' =>
      constructor
      · intro h
        injection h with h
        exact ⟨[], a, rest, rfl, by simp, by rw [hp, h]⟩
      · rintro ⟨pre, s, post, hdecomp, hpre, hs⟩
        cases pre with
        | nil =>
          simp only [List.nil_append, List.cons.injEq] at hdecomp
          rw [hdecomp.1] at hp
          rw [hp] at hs
          injection hs with hs
          rw [hs]
        | cons p pre2 =>
          simp only [List.cons_append, List.cons.injEq] at hdecomp
          have hpok := hpre p (by simp)
          rw [← hdecomp.1, hp] at hpok
          simp [Except.isOk, Except.toBool] at hpok
    | ok k =>
      cases hr : parseCovenantKeysFromSlice rest with
      | error e' =>
        constructor
        · intro h
          injection h with h
          subst h
          obtain ⟨pre, s, post, hdecomp, hpre, hs⟩ := ih.mp hr
          refine ⟨a :: pre, s, post, by simp [hdecomp], ?_, hs⟩
          intro t ht
          rcases List.mem_cons.mp ht with h1 | h1
          · rw [h1, hp]
            rfl
          · exact hpre t h1
        · rintro ⟨pre, s, post, hdecomp, hpre, hs⟩
          cases pre with
          | nil =>
            simp only [List.nil_append, List.cons.injEq] at hdecomp
            rw [hdecomp.1] at hp
            rw [hp] at hs
            exact Except.noConfusion hs
          | cons p pre2 =>
            simp only [List.cons_append, List.cons.injEq] at hdecomp
            have htail : parseCovenantKeysFromSlice rest = .error e := by
              rw [ih]
              exact ⟨pre2, s, post, hdecomp.2, fun t ht => hpre t (by simp [ht]), hs⟩
            rw [hr] at htail
            injection htail with htail
            rw [htail]
      | ok ks =>
        constructor
        · intro h
          exact Except.noConfusion h
        · rintro ⟨pre, s, post, hdecomp, hpre, hs⟩
          cases pre with
          | nil =>
            simp only [List.nil_append, List.cons.injEq] at hdecomp
            rw [hdecomp.1] at hp
            rw [hp] at hs
            exact Except.noConfusion hs
          | cons p pre2 =>
            simp only [List.cons_append, List.cons.injEq] at hdecomp
            have htail : parseCovenantKeysFromSlice rest = .error e := by
              rw [ih]
              exact ⟨pre2, s, post, hdecomp.2, fun t ht => hpre t (by simp [ht]), hs⟩
            rw [hr] at htail
            exact Except.noConfusion htail

/-- C8: parseCovenantKeysFromSlice decodes each element independently:
it succeeds exactly when every element decodes, returning the decoded
key of each position in input order (duplicates kept, same length),
and it fails exactly with the error of the first invalid element. -/
theorem claim_C8 (l : List String) (ks : List PublicKey) (e : Err) :
    (parseCovenantKeysFromSlice l = .ok ks ↔
      (ks.length = l.length ∧
        ∀ p ∈ l.zip ks, parseSchnorPubKeyFromHex p.1 = .ok p.2))
  ∧ (parseCovenantKeysFromSlice l = .error e ↔
      ∃ pre s post, l = pre ++ s :: post
        ∧ (∀ t ∈ pre, (parseSchnorPubKeyFromHex t).isOk = true)
        ∧ parseSchnorPubKeyFromHex s = .error e) :=
  ⟨covkeys_ok_iff l ks, covkeys_error_iff l e⟩

theorem readBytes_append (xs rest : List Nat) :
    readBytes xs.length (xs ++ rest) = some (xs, rest) := by
  rw [readBytes, if_neg (by simp)]
  rw [List.take_left, List.drop_left]

theorem liftR_readBytes_append (n : Nat) (xs rest : List Nat)
    (h : xs.length = n) :
    liftR (readBytes n (xs ++ rest)) = .ok (xs, rest) := by
  subst h
  rw [readBytes_append]
  rfl

theorem liftR_readBytes_natToBytes (w n : Nat) (rest : List Nat) :
    liftR (readBytes w (natToBytes w n ++ rest)) = .ok (natToBytes w n, rest) :=
  liftR_readBytes_append w _ rest (length_natToBytes w n)

theorem tagToNet_netTag (n : BtcNetwork) : tagToNet (netTag n) = .ok n := by
  cases n <;> rfl

theorem netTag_lt (n : BtcNetwork) : netTag n < 256 := by
  cases n <;> decide

theorem readKeysAux_flatten (ks : List PublicKey) (fuel : Nat)
    (hf : ks.length ≤ fuel) (hk : ∀ k ∈ ks, k.xCoord < 256 ^ 32) :
    readKeysAux fuel ((ks.map (fun k => natToBytes 32 k.xCoord)).flatten)
      = .ok ks := by
  induction ks generalizing fuel with
  | nil => cases fuel <;> rfl
  | cons k rest ih =>
    cases fuel with
    | zero => exact absurd hf (by simp)
    | succ f =>
      have hlen : (natToBytes 32 k.xCoord).length = 32 := length_natToBytes 32 _
      cases hE : natToBytes 32 k.xCoord with
      | nil => rw [hE] at hlen; simp at hlen
      | cons b t =>
        have hx : bytesToNat (b :: t) = k.xCoord := by
          rw [← hE]
          exact bytesToNat_natToBytes 32 _ (hk k (by simp))
        have hread : readBytes 32 ((b :: t) ++ (rest.map
            (fun k => natToBytes 32 k.xCoord)).flatten)
            = some (b :: t, (rest.map (fun k => natToBytes 32 k.xCoord)).flatten) := by
          have h32 : (b :: t).length = 32 := by rw [← hE]; exact hlen
          rw [← h32]
          exact readBytes_append _ _
        have htail := ih f (by simpa using Nat.lt_succ_iff.mp (Nat.lt_of_lt_of_le
          (Nat.lt_succ_of_le (Nat.le_refl _)) hf)) (fun x hx2 => hk x (by simp [hx2]))
        simp only [List.map_cons, List.flatten_cons, hE]
        rw [List.cons_append]
        simp only [readKeysAux]
        rw [← List.cons_append, hread]
        simp only [htail, hx]

theorem length_flatten_enc (ks : List PublicKey) :
    ((ks.map (fun k => natToBytes 32 k.xCoord)).flatten).length
      = 32 * ks.length := by
  induction ks with
  | nil => rfl
  | cons k rest ih =>
    simp only [List.map_cons, List.flatten_cons, List.length_append,
      length_natToBytes, ih, List.length_cons]
    ring

theorem readKeys_flatten (ks : List PublicKey)
    (hk : ∀ k ∈ ks, k.xCoord < 256 ^ 32) :
    readKeys ((ks.map (fun k => natToBytes 32 k.xCoord)).flatten) = .ok ks := by
  rw [readKeys]
  apply readKeysAux_flatten ks _ _ hk
  rw [length_flatten_enc]
  omega

theorem pow_256_32 : (2 : Nat) ^ 256 = 256 ^ 32 := by decide

theorem serialize_lt (tx : StakingTx) (hmb : ∀ b ∈ tx.magicBytes, b < 256) :
    ∀ b ∈ serializeStakingTx tx, b < 256 := by
  intro b hb
  simp only [serializeStakingTx, List.append_assoc, List.mem_append,
    List.mem_singleton, List.mem_flatten, List.mem_map] at hb
  rcases hb with h | h | h | h | h | h | h | h
  · exact hmb b h
  · exact natToBytes_lt _ _ b h
  · exact natToBytes_lt _ _ b h
  · exact natToBytes_lt _ _ b h
  · exact natToBytes_lt _ _ b h
  · exact natToBytes_lt _ _ b h
  · rw [h]; exact netTag_lt _
  · obtain ⟨l2, ⟨k, _, hk⟩, hbl⟩ := h
    rw [← hk] at hbl
    exact natToBytes_lt _ _ b hbl

theorem deserialize_serialize (tx : StakingTx)
    (hmlen : tx.magicBytes.length = 4)
    (hsk : tx.stakerPk.xCoord < 2 ^ 256)
    (hfk : tx.fpPk.xCoord < 2 ^ 256)
    (hck : ∀ k ∈ tx.covenantKeys, k.xCoord < 2 ^ 256)
    (hq : tx.covenantQuorum < 2 ^ 32)
    (ht : tx.stakingTime < 2 ^ 16)
    (ha : tx.stakingAmount.toNat < 2 ^ 63)
    (ha0 : 0 ≤ tx.stakingAmount) :
    deserializeStakingTx (serializeStakingTx tx) = .ok tx := by
  obtain ⟨magic, ⟨sx⟩, ⟨fx⟩, cov, q, t, a, net⟩ := tx
  simp only at hmlen hsk hfk hck hq ht ha ha0
  have hsx : bytesToNat (natToBytes 32 sx) = sx :=
    bytesToNat_natToBytes 32 sx (by rw [← pow_256_32]; exact hsk)
  have hfx : bytesToNat (natToBytes 32 fx) = fx :=
    bytesToNat_natToBytes 32 fx (by rw [← pow_256_32]; exact hfk)
  have hqn : bytesToNat (natToBytes 4 q) = q :=
    bytesToNat_natToBytes 4 q (by norm_num at hq ⊢; omega)
  have htn : bytesToNat (natToBytes 2 t) = t :=
    bytesToNat_natToBytes 2 t (by norm_num at ht ⊢; omega)
  have han : bytesToNat (natToBytes 8 a.toNat) = a.toNat :=
    bytesToNat_natToBytes 8 a.toNat (by norm_num at ha ⊢; omega)
  have hcov : ∀ k ∈ cov, k.xCoord < 256 ^ 32 := by
    intro k hkm
    rw [← pow_256_32]
    exact hck k hkm
  simp only [serializeStakingTx, deserializeStakingTx, List.append_assoc,
    bind, Except.bind, liftR_readBytes_append 4 magic _ hmlen,
    liftR_readBytes_natToBytes,
    liftR_readBytes_append 1 [netTag net] _ rfl,
    bytesToNat_singleton, tagToNet_netTag, readKeys_flatten cov hcov,
    hsx, hfx, hqn, htn, han, Except.ok.injEq, StakingTx.mk.injEq]
  simp [Int.toNat_of_nonneg ha0]

/-- C1: for every set of valid staking parameters (keys in range,
magic bytes of the protocol length, quorum at most the committee size
and within uint32, staking time in [1, 65535], positive int64 amount,
resolved network), building the staking transaction through
MakeCreatePhase1StakingTxResponse succeeds, and verifying its hex
output — decoding the transaction and handing it to ParseV0StakingTx
with the same magic bytes, covenant keys, quorum and network, as
check-phase1-staking-transaction does — succeeds as well. -/
theorem claim_C1 (magicBytes : List Nat) (stakerPk fpPk : PublicKey)
    (covenantKeys : List PublicKey) (covenantQuorum stakingTimeBlocks : Nat)
    (stakingAmount : Int) (netName : String) (net : BtcNetwork)
    (hnet : GetBtcNetworkParams netName = .ok net)
    (hmlen : magicBytes.length = MagicBytesLen)
    (hmb : ∀ b ∈ magicBytes, b < 256)
    (hsk : stakerPk.xCoord < 2 ^ 256)
    (hfk : fpPk.xCoord < 2 ^ 256)
    (hck : ∀ k ∈ covenantKeys, k.xCoord < 2 ^ 256)
    (hq : covenantQuorum ≤ covenantKeys.length)
    (hq32 : covenantQuorum < 2 ^ 32)
    (ht1 : 1 ≤ stakingTimeBlocks) (ht2 : stakingTimeBlocks ≤ 65535)
    (ha1 : 0 < stakingAmount) (ha2 : stakingAmount < 2 ^ 63) :
    ∃ resp tx,
      MakeCreatePhase1StakingTxResponse magicBytes stakerPk fpPk covenantKeys
          covenantQuorum stakingTimeBlocks stakingAmount net = .ok resp
      ∧ verifyStakingTxHex resp.stakingTxHex magicBytes covenantKeys
          covenantQuorum net = .ok tx := by
  have hbuild : BuildV0IdentifiableStakingOutputsAndTx magicBytes stakerPk fpPk
      covenantKeys covenantQuorum stakingTimeBlocks stakingAmount net
      = .ok ⟨magicBytes, stakerPk, fpPk, covenantKeys, covenantQuorum,
          stakingTimeBlocks, stakingAmount, net⟩ := by
    rw [BuildV0IdentifiableStakingOutputsAndTx, if_neg (by omega),
      if_neg (by omega)]
  have hser : ∀ b ∈ serializeStakingTx ⟨magicBytes, stakerPk, fpPk,
      covenantKeys, covenantQuorum, stakingTimeBlocks, stakingAmount, net⟩,
      b < 256 :=
    serialize_lt _ hmb
  have hdes : deserializeStakingTx (serializeStakingTx ⟨magicBytes, stakerPk,
      fpPk, covenantKeys, covenantQuorum, stakingTimeBlocks, stakingAmount,
      net⟩) = .ok ⟨magicBytes, stakerPk, fpPk, covenantKeys, covenantQuorum,
      stakingTimeBlocks, stakingAmount, net⟩ := by
    apply deserialize_serialize <;> simp only
    · exact hmlen
    · exact hsk
    · exact hfk
    · exact hck
    · exact hq32
    · omega
    · omega
    · omega
  have hparse : ParseV0StakingTx ⟨magicBytes, stakerPk, fpPk, covenantKeys,
      covenantQuorum, stakingTimeBlocks, stakingAmount, net⟩ magicBytes
      covenantKeys covenantQuorum net = .ok ⟨magicBytes, stakerPk, fpPk,
      covenantKeys, covenantQuorum, stakingTimeBlocks, stakingAmount, net⟩ := by
    rw [ParseV0StakingTx, if_neg (by omega), if_neg (by omega),
      if_neg (by simp), if_neg (by simp), if_neg (by simp), if_neg (by simp)]
  refine ⟨⟨hexEncode (serializeStakingTx ⟨magicBytes, stakerPk, fpPk,
    covenantKeys, covenantQuorum, stakingTimeBlocks, stakingAmount, net⟩)⟩,
    ⟨magicBytes, stakerPk, fpPk, covenantKeys, covenantQuorum,
      stakingTimeBlocks, stakingAmount, net⟩, ?_, ?_⟩
  · simp only [MakeCreatePhase1StakingTxResponse, bind, Except.bind, hbuild]
  · simp only [verifyStakingTxHex, NewBTCTxFromHex, bind, Except.bind,
      hexDecodeE_hexEncode _ hser, hdes, hparse]

/-- C1 witness: a concrete valid parameter set — 4 magic bytes, small
in-range keys, three covenant members with quorum 2, 100 blocks, 10000
satoshi, regtest — builds and then verifies. -/
theorem claim_C1_witness :
    ∃ resp tx,
      MakeCreatePhase1StakingTxResponse [98, 98, 116, 52] ⟨1⟩ ⟨2⟩
          [⟨3⟩, ⟨4⟩, ⟨5⟩] 2 100 10000 .regtest = .ok resp
      ∧ verifyStakingTxHex resp.stakingTxHex [98, 98, 116, 52]
          [⟨3⟩, ⟨4⟩, ⟨5⟩] 2 .regtest = .ok tx :=
  claim_C1 [98, 98, 116, 52] ⟨1⟩ ⟨2⟩ [⟨3⟩, ⟨4⟩, ⟨5⟩] 2 100 10000
    "regtest" .regtest (by decide) (by decide) (by decide) (by decide)
    (by decide) (by decide) (by decide) (by decide) (by decide) (by decide)
    (by decide) (by decide)

end BtcStaker
